import Mathlib

/-!
Shallow embedding of the tinykv Raft consensus module: the `Raft` peer state
machine from `raft/raft.go` and the `RaftLog` structure from the log file.
Go slices become `List`, the `Prs` and `votes` maps become functions over a
`peers` list that models the fixed key set, and `uint64` becomes `Nat` with
explicit wraparound (`sub64`) where Go subtraction can underflow.  Out of
range slice indexing, which panics in Go, is modelled with `List.getD` at
the raft layer (the code only indexes in range when `dummyIndex = 0`) and
with an explicit `oob` result in `RaftLog.Term`, where the panic matters.
The random election jitter `rand.IntN(baseTimeout)` is passed in as the
explicit argument `jit`, and the nondeterministic Go map iteration order is
fixed to the order of the `peers` list.
-/

set_option linter.unusedVariables false

/-- Log entry, mirroring `pb.Entry` (`Data` is a byte list, nil becomes `[]`). -/
structure Entry where
  Index : Nat := 0
  Term : Nat := 0
  Data : List Nat := []
  deriving DecidableEq, Repr

instance : Inhabited Entry := ⟨{}⟩

/-- Replication progress of one peer in the leader's view (`Progress`). -/
structure Progress where
  Match : Nat := 0
  Next : Nat := 0
  deriving DecidableEq, Repr

/-- Role of a node (`StateType`). -/
inductive StateType where
  | StateFollower
  | StateCandidate
  | StateLeader
  deriving DecidableEq, Repr

/-- Message types of `eraftpb` used by the module. -/
inductive MsgType where
  | MsgHup
  | MsgBeat
  | MsgPropose
  | MsgAppend
  | MsgAppendResponse
  | MsgRequestVote
  | MsgRequestVoteResponse
  | MsgSnapshot
  | MsgHeartbeat
  | MsgHeartbeatResponse
  | MsgTransferLeader
  | MsgTimeoutNow
  deriving DecidableEq, Repr

/-- Error values of the raft package (`ErrProposalDropped` from `raft.go`,
`ErrCompacted` and `ErrUnavailable` from the storage layer). -/
inductive GoErr where
  | ErrProposalDropped
  | ErrCompacted
  | ErrUnavailable
  deriving DecidableEq, Repr

/-- Wire message, mirroring `pb.Message`; unset Go fields default to zero
values. -/
structure Message where
  MsgType : MsgType
  From : Nat := 0
  To : Nat := 0
  Term : Nat := 0
  LogTerm : Nat := 0
  Index : Nat := 0
  Entries : List Entry := []
  Commit : Nat := 0
  Reject : Bool := false
  deriving DecidableEq, Repr

/-- The in-memory log (`RaftLog`); `storage` and `pendingSnapshot` are only
touched by unimplemented 2C code and are omitted. -/
structure RaftLog where
  committed : Nat := 0
  applied : Nat := 0
  stabled : Nat := 0
  entries : List Entry := []
  dummyIndex : Nat := 0
  deriving DecidableEq, Repr

/-- `allEntries`: every entry except the dummy, `l.entries[1:]`. -/
def RaftLog.allEntries (l : RaftLog) : List Entry := l.entries.drop 1

/-- `LastIndex`: `dummyIndex + len(allEntries())`. -/
def RaftLog.LastIndex (l : RaftLog) : Nat := l.dummyIndex + l.allEntries.length

/-- Go `uint64` subtraction `a - b` with wraparound modulo `2 ^ 64`,
assuming `a` and `b` are below `2 ^ 64`. -/
def sub64 (a b : Nat) : Nat := (a + (2 ^ 64 - b % 2 ^ 64)) % 2 ^ 64

/-- Result of `RaftLog.Term`: the Go function returns `(uint64, error)` and
its only return is `(l.entries[i-l.dummyIndex].Term, nil)`; an out of range
index makes the Go expression panic, modelled by `oob`. -/
inductive TermRes where
  | ok (t : Nat) (e : Option GoErr)
  | oob
  deriving DecidableEq, Repr

/-- `Term(i)`: `return l.entries[i-l.dummyIndex].Term, nil`, with the index
computed in `uint64` arithmetic. -/
def RaftLog.Term (l : RaftLog) (i : Nat) : TermRes :=
  match l.entries.get? (sub64 i l.dummyIndex) with
  | some e => .ok e.Term none
  | none => .oob

/-- The value a caller of the form `t, _ := r.RaftLog.Term(i)` observes; the
callers in `raft.go` only query in-range indices, the `oob` arm is a dead
default. -/
def termZ (l : RaftLog) (i : Nat) : Nat :=
  match l.Term i with
  | .ok t _ => t
  | .oob => 0

/-- The `Raft` peer.  `peers` models the key set of the Go maps `Prs` and
`votes` (fixed after `newRaft`, since `addNode`/`removeNode` are stubs) and
fixes their iteration order. -/
structure Raft where
  id : Nat
  Term : Nat := 0
  Vote : Nat := 0
  raftLog : RaftLog := {}
  Prs : Nat → Progress := fun _ => {}
  peers : List Nat := []
  State : StateType := .StateFollower
  votes : Nat → Bool := fun _ => false
  msgs : List Message := []
  Lead : Nat := 0
  baseTimeout : Nat := 0
  heartbeatTimeout : Nat := 0
  electionTimeout : Nat := 0
  heartbeatElapsed : Nat := 0
  electionElapsed : Nat := 0
  leadTransferee : Nat := 0
  PendingConfIndex : Nat := 0
  voteCount : Nat := 0
  rejectCount : Nat := 0

/-- Pointwise map update, modelling `m[k] = v` on a Go map. -/
def updFn {α : Type} (f : Nat → α) (k : Nat) (v : α) : Nat → α :=
  fun x => if x = k then v else f x

/-- The peers other than `r` itself, in `peers` order; models the loops
`for id := range r.Prs { if id == r.id { continue } ... }`. -/
def others (r : Raft) : List Nat := r.peers.filter (fun p => p ≠ r.id)

/-- `sendAppend(to)`: collect `entries[i]` for `i` in `[Next, LastIndex]`,
use `entries[Match].Term` as `LogTerm` and `Match` as `Index`, queue the
message, then set the leader's own progress to
`{Match: LastIndex, Next: LastIndex + 1}`. -/
def sendAppend (r : Raft) (toId : Nat) : Raft :=
  let pr := r.Prs toId
  let entry := (List.range' pr.Next (r.raftLog.LastIndex + 1 - pr.Next)).map
    (fun i => r.raftLog.entries.getD i default)
  let logTerm := (r.raftLog.entries.getD pr.Match default).Term
  let msg : Message :=
    { MsgType := .MsgAppend
      From := r.id
      To := toId
      Term := r.Term
      Commit := r.raftLog.committed
      Entries := entry
      LogTerm := logTerm
      Index := pr.Match }
  let r1 := { r with msgs := r.msgs ++ [msg] }
  { r1 with Prs := updFn r1.Prs r1.id ⟨r1.raftLog.LastIndex, r1.raftLog.LastIndex + 1⟩ }

/-- `sendHeartbeat(to)`. -/
def sendHeartbeat (r : Raft) (toId : Nat) : Raft :=
  { r with msgs := r.msgs ++
      [{ MsgType := .MsgHeartbeat, From := r.id, To := toId, Term := r.Term }] }

/-- The broadcast loop shared by `becomeLeader`, `updateCommit` and
`HandleMsgPropose`: `sendAppend` to every other peer. -/
def broadcastAppend (r : Raft) : Raft := (others r).foldl sendAppend r

/-- `becomeFollower(term, lead)`. -/
def becomeFollower (r : Raft) (term lead : Nat) : Raft :=
  { r with
    State := .StateFollower
    Term := term
    Lead := lead
    Vote := 0
    electionElapsed := 0 }

/-- `becomeCandidate()`; `jit` stands for `rand.IntN(r.baseTimeout)`. -/
def becomeCandidate (r : Raft) (jit : Nat) : Raft :=
  { r with
    State := .StateCandidate
    Term := r.Term + 1
    Vote := r.id
    votes := updFn r.votes r.id true
    electionElapsed := 0
    voteCount := 1
    rejectCount := 0
    electionTimeout := r.baseTimeout + jit }

/-- `becomeLeader()`: set state and lead, reset `heartbeatElapsed`, append
the noop entry at `LastIndex + 1` with the current term, then `sendAppend`
to every other peer.  The Progress table is not touched here. -/
def becomeLeader (r : Raft) : Raft :=
  let r1 := { r with State := .StateLeader, Lead := r.id, heartbeatElapsed := 0 }
  let noop : Entry := { Term := r1.Term, Index := r1.raftLog.LastIndex + 1, Data := [] }
  let r2 := { r1 with raftLog := { r1.raftLog with entries := r1.raftLog.entries ++ [noop] } }
  broadcastAppend r2

/-- The scan loop of `updateCommit`: for `i` in `(committed, LastIndex]`,
count the progress values with `Match >= i`; when the count is a strict
majority, `Term(i)` equals the leader term and the running committed value
differs from `i`, move committed to `i` and set the update flag. -/
def commitStep (r : Raft) (acc : Nat × Bool) (i : Nat) : Nat × Bool :=
  if (r.peers.filter (fun p => (r.Prs p).Match ≥ i)).length > r.peers.length / 2 ∧
      termZ r.raftLog i = r.Term ∧ acc.1 ≠ i
  then (i, true) else acc

def commitScan (r : Raft) : Nat × Bool :=
  (List.range' (r.raftLog.committed + 1)
      (r.raftLog.LastIndex - r.raftLog.committed)).foldl
    (commitStep r) (r.raftLog.committed, false)

/-- `updateCommit()`: run the scan, install the new committed index, and on
any advance broadcast `MsgAppend` to every other peer. -/
def updateCommit (r : Raft) : Raft :=
  let cw := commitScan r
  let r1 := { r with raftLog := { r.raftLog with committed := cw.1 } }
  if cw.2 then broadcastAppend r1 else r1

/-- `RequestVote()`: for every other peer reset its `votes` record and queue
a `MsgRequestVote` carrying `LastIndex` and `Term(LastIndex)`; with a single
peer, become leader immediately. -/
def requestVoteStep (s : Raft) (id : Nat) : Raft :=
  let s1 := { s with votes := updFn s.votes id false }
  { s1 with msgs := s1.msgs ++
    [{ MsgType := .MsgRequestVote, From := s1.id, To := id, Term := s1.Term,
       Index := s1.raftLog.LastIndex,
       LogTerm := termZ s1.raftLog s1.raftLog.LastIndex }] }

def RequestVote (r : Raft) : Raft :=
  let r1 := (others r).foldl requestVoteStep r
  if r1.peers.length = 1 then becomeLeader r1 else r1

/-- `tick()`; `jit` stands for the jitter drawn if an election starts. -/
def tick (r : Raft) (jit : Nat) : Raft :=
  match r.State with
  | .StateFollower =>
    let r1 := { r with electionElapsed := r.electionElapsed + 1 }
    if r1.electionElapsed ≥ r1.electionTimeout
    then RequestVote (becomeCandidate r1 jit) else r1
  | .StateCandidate =>
    let r1 := { r with electionElapsed := r.electionElapsed + 1 }
    if r1.electionElapsed ≥ r1.electionTimeout
    then RequestVote (becomeCandidate r1 jit) else r1
  | .StateLeader =>
    let r1 := { r with heartbeatElapsed := r.heartbeatElapsed + 1 }
    if r1.heartbeatElapsed ≥ r1.heartbeatTimeout
    then (others r1).foldl sendHeartbeat { r1 with heartbeatElapsed := 0 }
    else r1

/-- `HandleMsgPropose(m)`: stamp each proposed entry with the current term
and `LastIndex + 1` and append it; with a single peer commit to `LastIndex`;
then `sendAppend` to every other peer. -/
def proposeStep (s : Raft) (e : Entry) : Raft :=
  { s with raftLog := { s.raftLog with entries := s.raftLog.entries ++
      [{ e with Term := s.Term, Index := s.raftLog.LastIndex + 1 }] } }

def HandleMsgPropose (r : Raft) (m : Message) : Raft :=
  let r1 := m.Entries.foldl proposeStep r
  let r2 := if r1.peers.length = 1
    then { r1 with raftLog := { r1.raftLog with committed := r1.raftLog.LastIndex } }
    else r1
  broadcastAppend r2

/-- `HandleRequestVote(m)`.  The reply is built first with the voter's
current term and `Reject: true`; the up-to-date checks reject early; then
`msg.Reject` is cleared when the prior vote allows it or when `m.Term`
is strictly higher (in which case the voter first becomes follower at
`m.Term` with lead `m.From`), and on a grant the vote is recorded. -/
def HandleRequestVote (r : Raft) (m : Message) : Raft :=
  let msg : Message :=
    { MsgType := .MsgRequestVoteResponse
      From := r.id
      To := m.From
      Term := r.Term
      Reject := true }
  if m.Term < r.Term then { r with msgs := r.msgs ++ [msg] }
  else if m.LogTerm < (r.raftLog.entries.getD r.raftLog.LastIndex default).Term
  then { r with msgs := r.msgs ++ [msg] }
  else if m.LogTerm = (r.raftLog.entries.getD r.raftLog.LastIndex default).Term
      ∧ m.Index < r.raftLog.LastIndex
  then { r with msgs := r.msgs ++ [msg] }
  else
    let grant := (r.Vote = 0 ∨ r.Vote = m.From) ∨ m.Term > r.Term
    let r1 := if m.Term > r.Term then becomeFollower r m.Term m.From else r
    let r2 := if grant
      then { r1 with Vote := m.From, votes := updFn r1.votes m.From true }
      else r1
    { r2 with msgs := r2.msgs ++ [{ msg with Reject := ¬ grant }] }

/-- `HandleVoteResponse(m)`: a higher term forces follower; otherwise tally
the grant or rejection and become leader on a strict majority of grants, or
follower on a strict majority of rejections. -/
def HandleVoteResponse (r : Raft) (m : Message) : Raft :=
  if m.Term > r.Term then
    { becomeFollower r m.Term m.From with Vote := 0 }
  else
    let r1 := if m.Reject
      then { r with votes := updFn r.votes m.From false, rejectCount := r.rejectCount + 1 }
      else { r with votes := updFn r.votes m.From true, voteCount := r.voteCount + 1 }
    if r1.voteCount > r1.peers.length / 2 ∧ r1.State = .StateCandidate
    then becomeLeader r1
    else if r1.rejectCount > r1.peers.length / 2 ∧ r1.State = .StateCandidate
    then becomeFollower r1 r1.Term 0
    else r1

/-- `HandleAppendResponse(m)`: the `m.Reject` branch is an empty TODO; the
progress of the sender is unconditionally set to
`{Match: m.Index, Next: m.Index + 1}` and the commit index re-evaluated. -/
def HandleAppendResponse (r : Raft) (m : Message) : Raft :=
  let r1 := { r with Prs := updFn r.Prs m.From ⟨m.Index, m.Index + 1⟩ }
  updateCommit r1

/-- The conflict scan of `handleAppendEntries`: walk
`i = m.Index + 1, j = 0` while `i ≤ LastIndex` and `j < len(m.Entries)`,
returning the first offset `j` whose existing entry term differs from
`m.Entries[j].Term`. -/
def findConflict (log : List Entry) (base lastIdx : Nat) (ents : List Entry) :
    Option Nat :=
  (List.range ents.length).find? (fun j =>
    decide (base + 1 + j ≤ lastIdx) &&
    decide ((log.getD (base + 1 + j) default).Term ≠ (ents.getD j default).Term))

/-- `handleAppendEntries(m)`: reject a stale term with the local term,
adopt `m.Term`, reject a missing or mismatched previous entry with a back
off hint, truncate at the first conflict (lowering `stabled`), append
`m.Entries[LastIndex-m.Index:]`, reply accept with the new `LastIndex`, and
raise `committed` to `min(m.Commit, LastIndex)` when `m.Commit` is ahead. -/
def handleAppendEntries (r : Raft) (m : Message) : Raft :=
  let msg : Message :=
    { MsgType := .MsgAppendResponse
      From := r.id
      To := m.From
      Term := m.Term
      Reject := false }
  if r.Term > m.Term then
    { r with msgs := r.msgs ++ [{ msg with Reject := true, Term := r.Term }] }
  else
    let r1 := { r with Term := m.Term }
    if m.Index > r1.raftLog.LastIndex then
      { r1 with msgs := r1.msgs ++
        [{ msg with Reject := true, Index := r1.raftLog.LastIndex }] }
    else if m.LogTerm ≠ (r1.raftLog.entries.getD m.Index default).Term then
      { r1 with msgs := r1.msgs ++
        [{ msg with Reject := true, Index := m.Index - 1 }] }
    else
      let r2 := match findConflict r1.raftLog.entries m.Index
          r1.raftLog.LastIndex m.Entries with
        | some j =>
          let i := m.Index + 1 + j
          { r1 with raftLog := { r1.raftLog with
              entries := r1.raftLog.entries.take i
              stabled := min r1.raftLog.stabled (i - 1) } }
        | none => r1
      let bgn := r2.raftLog.LastIndex - m.Index
      let r3 := { r2 with raftLog := { r2.raftLog with
          entries := r2.raftLog.entries ++ m.Entries.drop bgn } }
      let r4 := { r3 with msgs := r3.msgs ++ [{ msg with Index := r3.raftLog.LastIndex }] }
      if m.Commit > r4.raftLog.committed then
        { r4 with raftLog := { r4.raftLog with
            committed := min m.Commit r4.raftLog.LastIndex } }
      else r4

/-- `handleHeartbeat(m)`: reply with the local term, rejecting a stale
term; a strictly higher term forces follower with lead `m.From` and the
reply then carries the adopted term. -/
def handleHeartbeat (r : Raft) (m : Message) : Raft :=
  let msg : Message :=
    { MsgType := .MsgHeartbeatResponse
      From := r.id
      To := m.From
      Term := r.Term }
  let msg1 := if m.Term < r.Term then { msg with Reject := true } else msg
  if m.Term > r.Term then
    let r1 := becomeFollower r m.Term m.From
    { r1 with msgs := r1.msgs ++ [{ msg1 with Reject := false, Term := r1.Term }] }
  else
    { r with msgs := r.msgs ++ [msg1] }

/-- `Step(m)`: the `(state, msgType)` dispatch table; every Go branch ends
in `return nil`, so the error component is always `none`. -/
def Step (r : Raft) (m : Message) (jit : Nat) : Raft × Option GoErr :=
  match r.State with
  | .StateFollower =>
    match m.MsgType with
    | .MsgHup => (RequestVote (becomeCandidate r jit), none)
    | .MsgRequestVoteResponse => (HandleVoteResponse r m, none)
    | .MsgAppend => (handleAppendEntries r m, none)
    | .MsgRequestVote => (HandleRequestVote r m, none)
    | .MsgHeartbeat => (handleHeartbeat r m, none)
    | _ => (r, none)
  | .StateCandidate =>
    match m.MsgType with
    | .MsgHup => (RequestVote (becomeCandidate r jit), none)
    | .MsgRequestVoteResponse => (HandleVoteResponse r m, none)
    | .MsgAppend =>
      let r1 := if m.Term ≥ r.Term then becomeFollower r m.Term m.From else r
      (handleAppendEntries r1 m, none)
    | .MsgRequestVote => (HandleRequestVote r m, none)
    | .MsgHeartbeat => (handleHeartbeat r m, none)
    | _ => (r, none)
  | .StateLeader =>
    match m.MsgType with
    | .MsgPropose => (HandleMsgPropose r m, none)
    | .MsgRequestVoteResponse => (HandleVoteResponse r m, none)
    | .MsgAppend =>
      let r1 := if m.Term > r.Term then becomeFollower r m.Term m.From else r
      (handleAppendEntries r1 m, none)
    | .MsgRequestVote => (HandleRequestVote r m, none)
    | .MsgHeartbeat => (handleHeartbeat r m, none)
    | .MsgBeat => ((others r).foldl sendHeartbeat r, none)
    | .MsgAppendResponse => (HandleAppendResponse r m, none)
    | _ => (r, none)

/-!
Concrete states and messages used by counterexamples and witnesses, and the
predicates the claims are stated with.
-/

/-- Shorthand for a log entry with empty payload. -/
def mkEnt (i t : Nat) : Entry := { Index := i, Term := t }

/-- A three peer leader at term 1 whose progress table still holds the
`newRaft` values `{Match: 0, Next: 1}`; its log holds only the dummy. -/
def rC3 : Raft :=
  { id := 1, Term := 1, State := .StateLeader, peers := [1, 2, 3],
    Prs := fun _ => ⟨0, 1⟩, raftLog := { entries := [mkEnt 0 0] } }

/-- A rejected append response from peer 2 carrying index 5. -/
def mC3 : Message :=
  { MsgType := .MsgAppendResponse, From := 2, To := 1, Term := 1,
    Index := 5, Reject := true }

/-- A three peer follower at term 1 with an empty log apart from the dummy. -/
def rC8 : Raft :=
  { id := 1, Term := 1, State := .StateFollower, peers := [1, 2, 3],
    raftLog := { entries := [mkEnt 0 0] } }

/-- A client proposal delivered to the follower `rC8`. -/
def mC8 : Message :=
  { MsgType := .MsgPropose, From := 1, To := 1, Entries := [{ Data := [120] }] }

/-- A follower at term 4 with leader 2 and a running election timer. -/
def rC10 : Raft :=
  { id := 1, Term := 4, State := .StateFollower, peers := [1, 2, 3], Lead := 2,
    electionElapsed := 7, raftLog := { entries := [mkEnt 0 0] } }

/-- A heartbeat from the leader at the same term 4. -/
def mC10 : Message := { MsgType := .MsgHeartbeat, From := 2, To := 1, Term := 4 }

/-- A follower at term 1 whose last log entry has term 5. -/
def rC5 : Raft :=
  { id := 1, Term := 1, State := .StateFollower, peers := [1, 2, 3],
    raftLog := { entries := [mkEnt 0 0, mkEnt 1 5], stabled := 1 } }

/-- A vote request at the strictly higher term 3 from a candidate whose log
(last term 1) is older than the voter's. -/
def mC5 : Message :=
  { MsgType := .MsgRequestVote, From := 2, To := 1, Term := 3,
    LogTerm := 1, Index := 1 }

/-- A three peer candidate at term 1 with the `newRaft` progress values. -/
def rC6 : Raft :=
  { id := 1, Term := 1, State := .StateCandidate, peers := [1, 2, 3],
    Prs := fun _ => ⟨0, 1⟩, votes := fun p => p = 1, voteCount := 1,
    Vote := 1, raftLog := { entries := [mkEnt 0 0] } }

/-- Whether a `RaftLog.Term` result is the value-with-error return the
claim expects, carrying the given error. -/
def returnsErr (res : TermRes) (e : GoErr) : Bool :=
  match res with
  | .ok _ (some e1) => e1 = e
  | _ => false

/-- A compacted log: dummy at index 2 and one real entry at index 3. -/
def lC7 : RaftLog := { entries := [mkEnt 2 0, mkEnt 3 4], dummyIndex := 2, stabled := 3 }

/-- The ordering invariant of the spec:
`applied ≤ committed ≤ lastIndex` and `stabled ≤ lastIndex`. -/
def logInv (l : RaftLog) : Prop :=
  l.applied ≤ l.committed ∧ l.committed ≤ l.LastIndex ∧ l.stabled ≤ l.LastIndex

instance (l : RaftLog) : Decidable (logInv l) := by
  unfold logInv
  infer_instance

/-- A follower at term 1 whose log is committed up to 3. -/
def rC9 : Raft :=
  { id := 1, Term := 1, State := .StateFollower, peers := [1, 2],
    raftLog := { committed := 3
                 applied := 1
                 stabled := 3
                 entries := [mkEnt 0 0, mkEnt 1 1, mkEnt 2 1, mkEnt 3 1] } }

/-- An append whose single entry conflicts with the committed entry at
index 1 (entry term 2 under message term 2). -/
def mC9 : Message :=
  { MsgType := .MsgAppend, From := 2, To := 1, Term := 2, LogTerm := 0,
    Index := 0, Entries := [mkEnt 1 2], Commit := 0 }

/-- The term the voter reads from `entries[LastIndex]` (its last log term
whenever `dummyIndex = 0` and the log is nonempty). -/
def voterLastTerm (r : Raft) : Nat :=
  (r.raftLog.entries.getD r.raftLog.LastIndex default).Term

/-- The up-to-date comparison of the vote rule: the candidate's last log
term is higher, or equal with at least as high a last index. -/
def upToDate (r : Raft) (m : Message) : Prop :=
  voterLastTerm r < m.LogTerm ∨
    (m.LogTerm = voterLastTerm r ∧ r.raftLog.LastIndex ≤ m.Index)

/-- The S4 follower: log `[(1,1), (2,1), (3,1)]` behind the dummy. -/
def rC2 : Raft :=
  { id := 1, Term := 1, State := .StateFollower, peers := [1, 2, 3],
    raftLog := { committed := 1
                 stabled := 3
                 entries := [mkEnt 0 0, mkEnt 1 1, mkEnt 2 1, mkEnt 3 1] } }

/-- The S4 retry append: `prevLogIndex 1`, entries `[(2,3), (3,3)]`. -/
def mC2 : Message :=
  { MsgType := .MsgAppend, From := 2, To := 1, Term := 3, LogTerm := 1,
    Index := 1, Entries := [mkEnt 2 3, mkEnt 3 3], Commit := 1 }

/-- A strict majority of the progress values have `Match ≥ i`, counted the
way `updateCommit` counts them. -/
def majorityMatch (r : Raft) (i : Nat) : Prop :=
  (r.peers.filter (fun p => (r.Prs p).Match ≥ i)).length > r.peers.length / 2

/-- A three peer leader at term 1 with the noop at index 1 replicated on
itself and peer 2 (`Match 1`), peer 3 still behind. -/
def rC1 : Raft :=
  { id := 1, Term := 1, State := .StateLeader, peers := [1, 2, 3],
    Prs := fun p => if p = 3 then ⟨0, 1⟩ else ⟨1, 2⟩,
    raftLog := { committed := 0, entries := [mkEnt 0 0, mkEnt 1 1] } }

/-- A follower at term 2 that has not voted, with last entry `(1, 2)`. -/
def rC4 : Raft :=
  { id := 1, Term := 2, Vote := 0, State := .StateFollower, peers := [1, 2, 3],
    raftLog := { entries := [mkEnt 0 0, mkEnt 1 2], stabled := 1 } }

/-- A vote request at term 3 whose log matches the voter's exactly. -/
def mC4 : Message :=
  { MsgType := .MsgRequestVote, From := 2, To := 1, Term := 3,
    LogTerm := 2, Index := 1 }

/-- The S6 leader: term 2, three peers, empty log. -/
def rC5w : Raft :=
  { id := 1, Term := 2, State := .StateLeader, peers := [1, 2, 3],
    Prs := fun _ => ⟨0, 1⟩, raftLog := { entries := [mkEnt 0 0] } }

/-- The S6 append at term 5. -/
def mC5w : Message :=
  { MsgType := .MsgAppend, From := 2, To := 1, Term := 5, LogTerm := 0, Index := 0 }

/-- No accepted conflict sits at or below the committed index: the proviso
under which a `MsgAppend` cannot truncate committed entries.  Every message
a correct leader can produce satisfies it (leader completeness); any other
message type satisfies it trivially. -/
def appendSafe (r : Raft) (m : Message) : Bool :=
  match m.MsgType with
  | .MsgAppend =>
    match findConflict r.raftLog.entries m.Index r.raftLog.LastIndex m.Entries with
    | some j => decide (r.raftLog.committed < m.Index + 1 + j)
    | none => true
  | _ => true

/-- A fresh three peer follower with only the dummy entry. -/
def rC9w : Raft :=
  { id := 1, Term := 1, State := .StateFollower, peers := [1, 2, 3],
    baseTimeout := 10, electionTimeout := 10, heartbeatTimeout := 1,
    raftLog := { entries := [mkEnt 0 0] } }

/-- A heartbeat at the follower's own term. -/
def mC9w : Message := { MsgType := .MsgHeartbeat, From := 2, To := 1, Term := 1 }

/-!
Helper lemmas about the fold loops and the handlers.
-/

lemma commitFold_inv (r : Raft) (lst : List Nat)
    (hb : ∀ i ∈ lst, r.raftLog.committed < i ∧ i ≤ r.raftLog.LastIndex)
    (acc : Nat × Bool)
    (hacc : acc = (r.raftLog.committed, false) ∨
      (r.raftLog.committed < acc.1 ∧ acc.1 ≤ r.raftLog.LastIndex ∧
        majorityMatch r acc.1 ∧ termZ r.raftLog acc.1 = r.Term ∧ acc.2 = true)) :
    lst.foldl (commitStep r) acc = (r.raftLog.committed, false) ∨
      (r.raftLog.committed < (lst.foldl (commitStep r) acc).1 ∧
        (lst.foldl (commitStep r) acc).1 ≤ r.raftLog.LastIndex ∧
        majorityMatch r (lst.foldl (commitStep r) acc).1 ∧
        termZ r.raftLog (lst.foldl (commitStep r) acc).1 = r.Term ∧
        (lst.foldl (commitStep r) acc).2 = true) := by
  induction lst generalizing acc with
  | nil => simpa using hacc
  | cons hd tl ih =>
    rw [List.foldl_cons]
    apply ih
    · intro i hi
      exact hb i (List.mem_cons_of_mem hd hi)
    · have hhd := hb hd (List.mem_cons_self hd tl)
      unfold commitStep
      split_ifs with hc
      · exact Or.inr ⟨hhd.1, hhd.2, hc.1, hc.2.1, rfl⟩
      · exact hacc

lemma commitScan_spec (r : Raft) :
    commitScan r = (r.raftLog.committed, false) ∨
      (r.raftLog.committed < (commitScan r).1 ∧
        (commitScan r).1 ≤ r.raftLog.LastIndex ∧
        majorityMatch r (commitScan r).1 ∧
        termZ r.raftLog (commitScan r).1 = r.Term ∧
        (commitScan r).2 = true) := by
  unfold commitScan
  apply commitFold_inv
  · intro i hi
    have := List.mem_range'_1.mp hi
    omega
  · exact Or.inl rfl

lemma sendAppend_frame (s : Raft) (t : Nat) :
    (sendAppend s t).raftLog = s.raftLog ∧ (sendAppend s t).id = s.id ∧
      (sendAppend s t).peers = s.peers ∧ (sendAppend s t).Term = s.Term ∧
      (sendAppend s t).State = s.State ∧ (sendAppend s t).Lead = s.Lead ∧
      (sendAppend s t).Vote = s.Vote ∧
      (sendAppend s t).electionElapsed = s.electionElapsed :=
  ⟨rfl, rfl, rfl, rfl, rfl, rfl, rfl, rfl⟩

lemma foldl_sendAppend_frame (lst : List Nat) (s : Raft) :
    (lst.foldl sendAppend s).raftLog = s.raftLog ∧
      (lst.foldl sendAppend s).id = s.id ∧
      (lst.foldl sendAppend s).peers = s.peers ∧
      (lst.foldl sendAppend s).Term = s.Term ∧
      (lst.foldl sendAppend s).State = s.State ∧
      (lst.foldl sendAppend s).Lead = s.Lead ∧
      (lst.foldl sendAppend s).Vote = s.Vote ∧
      (lst.foldl sendAppend s).electionElapsed = s.electionElapsed := by
  induction lst generalizing s with
  | nil => exact ⟨rfl, rfl, rfl, rfl, rfl, rfl, rfl, rfl⟩
  | cons hd tl ih =>
    rw [List.foldl_cons]
    exact (ih (sendAppend s hd)).imp id id

lemma foldl_sendAppend_msgs (lst : List Nat) (s : Raft) :
    ∃ tail, (lst.foldl sendAppend s).msgs = s.msgs ++ tail ∧
      ∀ p ∈ lst, ∃ msg ∈ tail,
        msg.MsgType = .MsgAppend ∧ msg.From = s.id ∧ msg.To = p := by
  induction lst generalizing s with
  | nil => exact ⟨[], by simp, by simp⟩
  | cons hd tl ih =>
    obtain ⟨tail, h1, h2⟩ := ih (sendAppend s hd)
    have hm : ∃ m1 : Message, (sendAppend s hd).msgs = s.msgs ++ [m1] ∧
        m1.MsgType = .MsgAppend ∧ m1.From = s.id ∧ m1.To = hd :=
      ⟨_, rfl, rfl, rfl, rfl⟩
    obtain ⟨m1, hm1, hty, hfr, hto⟩ := hm
    refine ⟨m1 :: tail, ?_, ?_⟩
    · rw [List.foldl_cons, h1, hm1, List.append_assoc]
      rfl
    · intro p hp
      rcases List.mem_cons.mp hp with hph | hpt
      · exact ⟨m1, List.mem_cons_self m1 tail, by rw [hty], by rw [hfr], by rw [hto, hph]⟩
      · obtain ⟨msg, hmem, h3, h4, h5⟩ := h2 p hpt
        exact ⟨msg, List.mem_cons_of_mem m1 hmem, h3,
          by rw [h4]; exact (sendAppend_frame s hd).2.1, h5⟩

lemma handleAppendEntries_frame (r : Raft) (m : Message) :
    (handleAppendEntries r m).State = r.State ∧
    (handleAppendEntries r m).Lead = r.Lead ∧
    (¬ r.Term > m.Term → (handleAppendEntries r m).Term = m.Term) ∧
    (r.Term > m.Term → (handleAppendEntries r m).Term = r.Term) := by
  simp only [handleAppendEntries]
  split_ifs with h1 h2 h3 <;> try split
  all_goals
    refine ⟨rfl, rfl, fun h => ?_, fun h => ?_⟩ <;>
    first | rfl | exact absurd h1 h | exact absurd h h1

lemma foldl_sendAppend_Prs_other (lst : List Nat) (s : Raft) (p : Nat)
    (hp : p ≠ s.id) : (lst.foldl sendAppend s).Prs p = s.Prs p := by
  induction lst generalizing s with
  | nil => rfl
  | cons hd tl ih =>
    rw [List.foldl_cons, ih (sendAppend s hd) hp]
    show updFn s.Prs s.id _ p = s.Prs p
    simp [updFn, hp]

lemma foldl_sendAppend_Prs_self (lst : List Nat) (s : Raft) (h : lst ≠ []) :
    (lst.foldl sendAppend s).Prs s.id =
      ⟨s.raftLog.LastIndex, s.raftLog.LastIndex + 1⟩ := by
  induction lst generalizing s with
  | nil => exact absurd rfl h
  | cons hd tl ih =>
    rw [List.foldl_cons]
    rcases tl with _ | ⟨x, xs⟩
    · show updFn s.Prs s.id ⟨s.raftLog.LastIndex, s.raftLog.LastIndex + 1⟩ s.id = _
      simp [updFn]
    · exact ih (sendAppend s hd) (by simp)

lemma sub64_of_le (i d : Nat) (hd : d ≤ i) (hi : i < 2 ^ 64) : sub64 i d = i - d := by
  unfold sub64
  rw [Nat.mod_eq_of_lt (by omega : d < 2 ^ 64)]
  have h : i + (2 ^ 64 - d) = (i - d) + 2 ^ 64 := by omega
  rw [h, Nat.add_mod_right, Nat.mod_eq_of_lt (by omega)]

lemma sub64_of_lt (i d : Nat) (hd : i < d) (hdlt : d < 2 ^ 64) :
    sub64 i d = 2 ^ 64 - (d - i) := by
  unfold sub64
  rw [Nat.mod_eq_of_lt hdlt, Nat.mod_eq_of_lt (by omega)]
  omega

lemma appendSafe_spec (r : Raft) (m : Message) (hm : appendSafe r m = true)
    (hA : m.MsgType = .MsgAppend) :
    ∀ j, findConflict r.raftLog.entries m.Index r.raftLog.LastIndex m.Entries
        = some j →
      r.raftLog.committed < m.Index + 1 + j := by
  intro j hj
  simp only [appendSafe, hA, hj] at hm
  exact of_decide_eq_true hm

lemma logInv_append (l : RaftLog) (es : List Entry) (h : logInv l) :
    logInv { l with entries := l.entries ++ es } := by
  obtain ⟨h1, h2, h3⟩ := h
  refine ⟨h1, ?_, ?_⟩ <;>
    simp only [RaftLog.LastIndex, RaftLog.allEntries, List.length_drop,
      List.length_append] at * <;>
    omega

lemma becomeLeader_logInv (r : Raft) (h : logInv r.raftLog) :
    logInv (becomeLeader r).raftLog := by
  simp only [becomeLeader, broadcastAppend]
  rw [(foldl_sendAppend_frame _ _).1]
  exact logInv_append r.raftLog _ h

lemma updateCommit_logInv (r : Raft) (h : logInv r.raftLog) :
    logInv (updateCommit r).raftLog := by
  have hgoal : logInv { r.raftLog with committed := (commitScan r).1 } := by
    rcases commitScan_spec r with hc | hc
    · rw [hc]
      exact h
    · obtain ⟨h1, h2, _, _, _⟩ := hc
      obtain ⟨g1, g2, g3⟩ := h
      simp only [logInv, RaftLog.LastIndex, RaftLog.allEntries] at *
      omega
  simp only [updateCommit, broadcastAppend]
  split_ifs with hf
  · rw [(foldl_sendAppend_frame _ _).1]
    exact hgoal
  · exact hgoal

lemma foldl_proposeStep_logInv (es : List Entry) (s : Raft)
    (h : logInv s.raftLog) : logInv ((es.foldl proposeStep s).raftLog) := by
  induction es generalizing s with
  | nil => exact h
  | cons e tl ih =>
    rw [List.foldl_cons]
    exact ih (proposeStep s e) (logInv_append s.raftLog _ h)

lemma handleMsgPropose_logInv (r : Raft) (m : Message) (h : logInv r.raftLog) :
    logInv (HandleMsgPropose r m).raftLog := by
  have h1 := foldl_proposeStep_logInv m.Entries r h
  simp only [HandleMsgPropose, broadcastAppend]
  split_ifs with hs
  · rw [(foldl_sendAppend_frame _ _).1]
    obtain ⟨g1, g2, g3⟩ := h1
    simp only [logInv, RaftLog.LastIndex, RaftLog.allEntries] at *
    omega
  · rw [(foldl_sendAppend_frame _ _).1]
    exact h1

lemma foldl_requestVoteStep_raftLog (lst : List Nat) (s : Raft) :
    (lst.foldl requestVoteStep s).raftLog = s.raftLog := by
  induction lst generalizing s with
  | nil => rfl
  | cons hd tl ih =>
    rw [List.foldl_cons]
    exact ih (requestVoteStep s hd)

lemma requestVote_logInv (r : Raft) (h : logInv r.raftLog) :
    logInv (RequestVote r).raftLog := by
  simp only [RequestVote]
  split_ifs with hs
  · apply becomeLeader_logInv
    rw [foldl_requestVoteStep_raftLog]
    exact h
  · rw [foldl_requestVoteStep_raftLog]
    exact h

lemma foldl_sendHeartbeat_raftLog (lst : List Nat) (s : Raft) :
    (lst.foldl sendHeartbeat s).raftLog = s.raftLog := by
  induction lst generalizing s with
  | nil => rfl
  | cons hd tl ih =>
    rw [List.foldl_cons]
    exact ih (sendHeartbeat s hd)

lemma handleHeartbeat_raftLog (r : Raft) (m : Message) :
    (handleHeartbeat r m).raftLog = r.raftLog := by
  simp only [handleHeartbeat]
  split_ifs <;> rfl

lemma handleRequestVote_raftLog (r : Raft) (m : Message) :
    (HandleRequestVote r m).raftLog = r.raftLog := by
  simp only [HandleRequestVote]
  split_ifs <;> rfl

lemma handleVoteResponse_logInv (r : Raft) (m : Message) (h : logInv r.raftLog) :
    logInv (HandleVoteResponse r m).raftLog := by
  simp only [HandleVoteResponse]
  split_ifs <;> first | exact h | exact becomeLeader_logInv _ h

lemma handleAppendEntries_logInv (r : Raft) (m : Message) (h : logInv r.raftLog)
    (hsafe : ∀ j, findConflict r.raftLog.entries m.Index r.raftLog.LastIndex
        m.Entries = some j → r.raftLog.committed < m.Index + 1 + j) :
    logInv (handleAppendEntries r m).raftLog := by
  obtain ⟨g1, g2, g3⟩ := h
  simp only [handleAppendEntries]
  split_ifs with h1 h2 h3 h4
  · exact ⟨g1, g2, g3⟩
  · exact ⟨g1, g2, g3⟩
  · exact ⟨g1, g2, g3⟩
  all_goals
    rcases hconf : findConflict r.raftLog.entries m.Index r.raftLog.LastIndex
        m.Entries with _ | j <;>
    simp only [hconf] at h4 ⊢ <;>
    first
      | (have hc := hsafe j hconf
         have hj := List.mem_range.mp (List.mem_of_find?_eq_some hconf)
         have hp := List.find?_some hconf
         rw [Bool.and_eq_true, decide_eq_true_eq, decide_eq_true_eq] at hp
         simp only [logInv, RaftLog.LastIndex, RaftLog.allEntries, List.length_drop,
           List.length_append, List.length_take] at g1 g2 g3 h4 hp hc ⊢
         omega)
      | (simp only [logInv, RaftLog.LastIndex, RaftLog.allEntries, List.length_drop,
           List.length_append, List.length_take] at g1 g2 g3 h4 ⊢
         omega)

lemma tick_logInv (r : Raft) (jit : Nat) (h : logInv r.raftLog) :
    logInv (tick r jit).raftLog := by
  rcases hs : r.State with _ | _ | _ <;> simp only [tick, hs] <;> split_ifs
  · exact requestVote_logInv _ h
  · exact h
  · exact requestVote_logInv _ h
  · exact h
  · rw [foldl_sendHeartbeat_raftLog]
    exact h
  · exact h

/-!
The claim theorems.
-/

/-- Claim C1: whenever the leader re-evaluates commit in `updateCommit`
(called after handling a `MsgAppendResponse`) and the committed index moves,
the new committed index `c` lies in `(committed, LastIndex]`, a strict
majority of the progress values have `Match ≥ c`, and `Term(c)` equals the
leader's current term; and on any advance a fresh `MsgAppend` is broadcast
to every other peer. -/
theorem updateCommit_commit_rule (r : Raft)
    (h : (updateCommit r).raftLog.committed ≠ r.raftLog.committed) :
    (r.raftLog.committed < (updateCommit r).raftLog.committed ∧
      (updateCommit r).raftLog.committed ≤ r.raftLog.LastIndex ∧
      majorityMatch r ((updateCommit r).raftLog.committed) ∧
      termZ r.raftLog ((updateCommit r).raftLog.committed) = r.Term) ∧
    ∀ p ∈ r.peers, p ≠ r.id →
      ∃ msg ∈ (updateCommit r).msgs.drop r.msgs.length,
        msg.MsgType = .MsgAppend ∧ msg.From = r.id ∧ msg.To = p := by
  have hcommitted : (updateCommit r).raftLog.committed = (commitScan r).1 := by
    simp only [updateCommit]
    split_ifs with hflag
    · unfold broadcastAppend
      rw [(foldl_sendAppend_frame _ _).1]
    · rfl
  rcases commitScan_spec r with hs | hs
  · exact absurd (by rw [hcommitted, hs]) h
  · obtain ⟨h1, h2, h3, h4, h5⟩ := hs
    constructor
    · rw [hcommitted]
      exact ⟨h1, h2, h3, h4⟩
    · intro p hp hpne
      have hrun : updateCommit r = broadcastAppend
          { r with raftLog := { r.raftLog with committed := (commitScan r).1 } } := by
        simp only [updateCommit]
        rw [if_pos h5]
      rw [hrun]
      unfold broadcastAppend
      obtain ⟨tail, ht1, ht2⟩ := foldl_sendAppend_msgs
        (others { r with raftLog := { r.raftLog with committed := (commitScan r).1 } })
        { r with raftLog := { r.raftLog with committed := (commitScan r).1 } }
      rw [ht1]
      have hdrop : (r.msgs ++ tail).drop r.msgs.length = tail := by
        simp
      rw [hdrop]
      have hpo : p ∈ others { r with raftLog :=
          { r.raftLog with committed := (commitScan r).1 } } := by
        unfold others
        exact List.mem_filter.mpr ⟨hp, by simpa using hpne⟩
      exact ht2 p hpo

/-- Witness for claim C1 at the leader `rC1`, whose commit index moves from
0 to 1. -/
theorem updateCommit_commit_rule_witness :
    ((updateCommit rC1).raftLog.committed ≠ rC1.raftLog.committed) ∧
    ((rC1.raftLog.committed < (updateCommit rC1).raftLog.committed ∧
      (updateCommit rC1).raftLog.committed ≤ rC1.raftLog.LastIndex ∧
      majorityMatch rC1 ((updateCommit rC1).raftLog.committed) ∧
      termZ rC1.raftLog ((updateCommit rC1).raftLog.committed) = rC1.Term) ∧
    ∀ p ∈ rC1.peers, p ≠ rC1.id →
      ∃ msg ∈ (updateCommit rC1).msgs.drop rC1.msgs.length,
        msg.MsgType = .MsgAppend ∧ msg.From = rC1.id ∧ msg.To = p) :=
  ⟨by decide, updateCommit_commit_rule rC1 (by decide)⟩

/-- Claim C2: when a follower accepts a `MsgAppend` whose
`(prevLogIndex, prevLogTerm) = (m.Index, m.LogTerm)` matches its log
(hypotheses `hterm`, `hidx`, `hmatch`) and the overlap walk finds its first
term conflict at offset `j` (position `i = m.Index + 1 + j`), the handler
truncates the log at `i`, lowers `stabled` to `min stabled (i - 1)`, appends
exactly the remaining entries `m.Entries[j..]`, and replies accept carrying
the new `LastIndex = m.Index + len(m.Entries)`.  Stated in the
`dummyIndex = 0` regime, the only one this code runs in (compaction is
unimplemented). -/
theorem handleAppendEntries_conflict_append (r : Raft) (m : Message) (j : Nat)
    (hd : r.raftLog.dummyIndex = 0)
    (hterm : ¬ r.Term > m.Term)
    (hidx : ¬ m.Index > r.raftLog.LastIndex)
    (hmatch : ¬ m.LogTerm ≠ (r.raftLog.entries.getD m.Index default).Term)
    (hconf : findConflict r.raftLog.entries m.Index r.raftLog.LastIndex m.Entries
        = some j) :
    (handleAppendEntries r m).raftLog.entries
        = r.raftLog.entries.take (m.Index + 1 + j) ++ m.Entries.drop j ∧
    (handleAppendEntries r m).raftLog.stabled
        = min r.raftLog.stabled (m.Index + j) ∧
    (handleAppendEntries r m).raftLog.LastIndex = m.Index + m.Entries.length ∧
    (handleAppendEntries r m).msgs = r.msgs ++
      [{ MsgType := .MsgAppendResponse, From := r.id, To := m.From, Term := m.Term,
         Index := m.Index + m.Entries.length, Reject := false }] := by
  have hj : j < m.Entries.length :=
    List.mem_range.mp (List.mem_of_find?_eq_some hconf)
  have hp := List.find?_some hconf
  rw [Bool.and_eq_true, decide_eq_true_eq, decide_eq_true_eq] at hp
  obtain ⟨hile, hne⟩ := hp
  have hL : r.raftLog.LastIndex = r.raftLog.entries.length - 1 := by
    simp [RaftLog.LastIndex, RaftLog.allEntries, hd]
  have hlen : r.raftLog.entries.length = r.raftLog.LastIndex + 1 := by omega
  have hii : m.Index + 1 + j < r.raftLog.entries.length := by omega
  simp only [handleAppendEntries, hconf]
  rw [if_neg hterm, if_neg hidx, if_neg hmatch]
  simp only [RaftLog.LastIndex, RaftLog.allEntries, hd, List.length_drop,
    List.length_take, List.length_append]
  have htake : min (m.Index + 1 + j) r.raftLog.entries.length = m.Index + 1 + j := by
    omega
  rw [htake]
  have hbgn : 0 + (m.Index + 1 + j - 1) - m.Index = j := by omega
  rw [hbgn]
  split_ifs <;>
    refine ⟨rfl, ?_, ?_, ?_⟩ <;>
    simp [RaftLog.LastIndex, RaftLog.allEntries] <;>
    omega

/-- Witness for claim C2: the S4 scenario, conflict at offset 0. -/
theorem handleAppendEntries_conflict_append_witness :
    (handleAppendEntries rC2 mC2).raftLog.entries
        = rC2.raftLog.entries.take (mC2.Index + 1 + 0) ++ mC2.Entries.drop 0 ∧
    (handleAppendEntries rC2 mC2).raftLog.stabled
        = min rC2.raftLog.stabled (mC2.Index + 0) ∧
    (handleAppendEntries rC2 mC2).raftLog.LastIndex = mC2.Index + mC2.Entries.length ∧
    (handleAppendEntries rC2 mC2).msgs = rC2.msgs ++
      [{ MsgType := .MsgAppendResponse, From := rC2.id, To := mC2.From, Term := mC2.Term,
         Index := mC2.Index + mC2.Entries.length, Reject := false }] :=
  handleAppendEntries_conflict_append rC2 mC2 0 (by decide) (by decide) (by decide)
    (by decide) (by decide)

/-- C3: the claim says a rejected `MsgAppendResponse` makes the leader back
off `next` and never install the rejected index as `match`.  The code's
reject branch is empty: stepping `rC3` with the rejected response `mC3`
(reject `true`, index 5) installs `{Match: 5, Next: 6}` for the sender,
exactly as if the response had been a success. -/
theorem handleAppendResponse_reject_installs_match :
    mC3.Reject = true ∧ rC3.Prs 2 = ⟨0, 1⟩ ∧ (Step rC3 mC3 0).1.Prs 2 = ⟨5, 6⟩ := by
  refine ⟨rfl, rfl, ?_⟩
  decide

/-- Claim C4: a voter handling `MsgRequestVote` appends exactly one reply,
and grants (reply `reject = false`, `vote := m.From`) if and only if
`m.Term ≥ self.Term`, the candidate's log is at least as up to date, and
the vote slot allows it (free, already `m.From`, or cleared because
`m.Term` is strictly higher, in which case the term is adopted); otherwise
the reply is a rejection carrying the voter's own term and the vote slot is
unchanged. -/
theorem handleRequestVote_grant_iff (r : Raft) (m : Message) :
    ∃ resp : Message,
      (HandleRequestVote r m).msgs = r.msgs ++ [resp] ∧
      resp.MsgType = .MsgRequestVoteResponse ∧ resp.To = m.From ∧
      (resp.Reject = false ↔
        (r.Term ≤ m.Term ∧ upToDate r m ∧
          (r.Term < m.Term ∨ r.Vote = 0 ∨ r.Vote = m.From))) ∧
      (resp.Reject = false → (HandleRequestVote r m).Vote = m.From ∧
        (r.Term < m.Term → (HandleRequestVote r m).Term = m.Term)) ∧
      (resp.Reject = true → resp.Term = r.Term ∧
        (HandleRequestVote r m).Vote = r.Vote) := by
  simp only [HandleRequestVote, upToDate, voterLastTerm, becomeFollower]
  split_ifs with h1 h2 h3 h4 h5 <;>
    refine ⟨_, rfl, rfl, rfl, ?_, ?_, ?_⟩ <;>
    simp_all <;> omega

/-- Witness for claim C4 at the voter `rC4` and request `mC4`. -/
theorem handleRequestVote_grant_iff_witness :
    ∃ resp : Message,
      (HandleRequestVote rC4 mC4).msgs = rC4.msgs ++ [resp] ∧
      resp.MsgType = .MsgRequestVoteResponse ∧ resp.To = mC4.From ∧
      (resp.Reject = false ↔
        (rC4.Term ≤ mC4.Term ∧ upToDate rC4 mC4 ∧
          (rC4.Term < mC4.Term ∨ rC4.Vote = 0 ∨ rC4.Vote = mC4.From))) ∧
      (resp.Reject = false → (HandleRequestVote rC4 mC4).Vote = mC4.From ∧
        (rC4.Term < mC4.Term → (HandleRequestVote rC4 mC4).Term = mC4.Term)) ∧
      (resp.Reject = true → resp.Term = rC4.Term ∧
        (HandleRequestVote rC4 mC4).Vote = rC4.Vote) :=
  handleRequestVote_grant_iff rC4 mC4

/-- Counterexample to claim C5: the follower `rC5` at term 1 receives the
`MsgRequestVote` `mC5` at the strictly higher term 3 from a candidate with
a stale log; the vote is rejected on the up-to-date check and the peer
keeps term 1 instead of becoming follower at term 3, so the shared
higher-term pre-rule does not hold for `MsgRequestVote`. -/
theorem step_stepdown_cex :
    mC5.Term > rC5.Term ∧ mC5.MsgType = .MsgRequestVote ∧
      (Step rC5 mC5 0).1.Term = 1 ∧ (Step rC5 mC5 0).1.Term ≠ mC5.Term := by
  refine ⟨by decide, rfl, ?_, ?_⟩ <;> decide

/-- Claim C5 as amended: for `m.Term > self.Term`, a `MsgAppend` makes the
receiver a follower at `m.Term` in every role (with `lead = m.From` when it
was leader — scenario S6), and `MsgHeartbeat` and `MsgRequestVoteResponse`
force follower at `m.Term` in every role; only `MsgRequestVote` is exempt,
adopting the higher term solely when the vote is granted. -/
theorem step_higher_term_stepdown (r : Raft) (m : Message) (jit : Nat)
    (h : r.Term < m.Term) :
    (m.MsgType = .MsgAppend → (Step r m jit).1.State = .StateFollower ∧
      (Step r m jit).1.Term = m.Term ∧
      (r.State = .StateLeader → (Step r m jit).1.Lead = m.From)) ∧
    (m.MsgType = .MsgHeartbeat → (Step r m jit).1.State = .StateFollower ∧
      (Step r m jit).1.Term = m.Term ∧ (Step r m jit).1.Lead = m.From) ∧
    (m.MsgType = .MsgRequestVoteResponse → (Step r m jit).1.State = .StateFollower ∧
      (Step r m jit).1.Term = m.Term) := by
  have hnot : ¬ r.Term > m.Term := by omega
  have hge : m.Term ≥ r.Term := by omega
  have hbnot : ¬ (becomeFollower r m.Term m.From).Term > m.Term := by
    simp [becomeFollower]
  refine ⟨fun hA => ?_, fun hH => ?_, fun hV => ?_⟩
  · rcases hs : r.State with _ | _ | _
    · simp only [Step, hs, hA]
      obtain ⟨f1, f2, f3, f4⟩ := handleAppendEntries_frame r m
      refine ⟨by rw [f1, hs], f3 hnot, fun hl => ?_⟩
      simp at hl
    · simp only [Step, hs, hA]
      rw [if_pos hge]
      obtain ⟨f1, f2, f3, f4⟩ := handleAppendEntries_frame (becomeFollower r m.Term m.From) m
      refine ⟨by rw [f1]; rfl, f3 hbnot, fun hl => ?_⟩
      simp at hl
    · simp only [Step, hs, hA]
      rw [if_pos h]
      obtain ⟨f1, f2, f3, f4⟩ := handleAppendEntries_frame (becomeFollower r m.Term m.From) m
      exact ⟨by rw [f1]; rfl, f3 hbnot, fun _ => by rw [f2]; rfl⟩
  · have hhb : (handleHeartbeat r m).State = .StateFollower ∧
        (handleHeartbeat r m).Term = m.Term ∧ (handleHeartbeat r m).Lead = m.From := by
      simp only [handleHeartbeat]
      rw [if_pos h]
      exact ⟨rfl, rfl, rfl⟩
    rcases hs : r.State with _ | _ | _ <;> simp only [Step, hs, hH] <;> exact hhb
  · have hvr : (HandleVoteResponse r m).State = .StateFollower ∧
        (HandleVoteResponse r m).Term = m.Term := by
      simp only [HandleVoteResponse]
      rw [if_pos h]
      exact ⟨rfl, rfl⟩
    rcases hs : r.State with _ | _ | _ <;> simp only [Step, hs, hV] <;> exact hvr

/-- Witness for claim C5: the S6 leader at term 2 receiving a term 5
append. -/
theorem step_higher_term_stepdown_witness :
    (mC5w.MsgType = .MsgAppend → (Step rC5w mC5w 0).1.State = .StateFollower ∧
      (Step rC5w mC5w 0).1.Term = mC5w.Term ∧
      (rC5w.State = .StateLeader → (Step rC5w mC5w 0).1.Lead = mC5w.From)) ∧
    (mC5w.MsgType = .MsgHeartbeat → (Step rC5w mC5w 0).1.State = .StateFollower ∧
      (Step rC5w mC5w 0).1.Term = mC5w.Term ∧ (Step rC5w mC5w 0).1.Lead = mC5w.From) ∧
    (mC5w.MsgType = .MsgRequestVoteResponse →
      (Step rC5w mC5w 0).1.State = .StateFollower ∧
      (Step rC5w mC5w 0).1.Term = mC5w.Term) :=
  step_higher_term_stepdown rC5w mC5w 0 (by decide)

/-- Counterexample to claim C6: `becomeLeader` on the candidate `rC6`
appends the noop (so `LastIndex = 1`) but leaves peer 2's progress at the
`newRaft` value `{Match: 0, Next: 1}` instead of resetting it to
`{match: 0, next: lastIndex + 1} = {0, 2}`. -/
theorem becomeLeader_progress_cex :
    (becomeLeader rC6).raftLog.LastIndex = 1 ∧
      (becomeLeader rC6).Prs 2 = ⟨0, 1⟩ ∧
      (becomeLeader rC6).Prs 2 ≠ ⟨0, (becomeLeader rC6).raftLog.LastIndex + 1⟩ := by
  refine ⟨by decide, by decide, by decide⟩

/-- Claim C6 as amended: `becomeLeader` leaves every other peer's Progress
entry untouched (no reset), appends the noop entry, and — through the first
`sendAppend`, hence only when another peer exists — sets the leader's own
entry to `{match: lastIndex, next: lastIndex + 1}`. -/
theorem becomeLeader_progress_effect (r : Raft) :
    (∀ p, p ≠ r.id → (becomeLeader r).Prs p = r.Prs p) ∧
    ((becomeLeader r).raftLog.entries = r.raftLog.entries ++
      [{ Term := r.Term, Index := r.raftLog.LastIndex + 1, Data := [] }]) ∧
    ((∃ q ∈ r.peers, q ≠ r.id) →
      (becomeLeader r).Prs r.id =
        ⟨(becomeLeader r).raftLog.LastIndex, (becomeLeader r).raftLog.LastIndex + 1⟩) := by
  simp only [becomeLeader, broadcastAppend]
  refine ⟨fun p hp => ?_, ?_, fun hq => ?_⟩
  · exact foldl_sendAppend_Prs_other _ _ p hp
  · rw [(foldl_sendAppend_frame _ _).1]
  · obtain ⟨q, hqmem, hqne⟩ := hq
    have hmem : q ∈ others { r with
        State := StateType.StateLeader, Lead := r.id, heartbeatElapsed := 0,
        raftLog := { r.raftLog with entries := r.raftLog.entries ++
          [{ Term := r.Term, Index := r.raftLog.LastIndex + 1, Data := [] }] } } := by
      unfold others
      exact List.mem_filter.mpr ⟨hqmem, by simpa using hqne⟩
    rw [(foldl_sendAppend_frame _ _).1]
    exact foldl_sendAppend_Prs_self _ _ (List.ne_nil_of_mem hmem)

/-- Witness for claim C6 on the three peer candidate `rC6`. -/
theorem becomeLeader_progress_effect_witness :
    (becomeLeader rC6).Prs 2 = rC6.Prs 2 ∧
    (becomeLeader rC6).raftLog.entries = rC6.raftLog.entries ++
      [{ Term := rC6.Term, Index := rC6.raftLog.LastIndex + 1, Data := [] }] ∧
    (becomeLeader rC6).Prs rC6.id =
      ⟨(becomeLeader rC6).raftLog.LastIndex, (becomeLeader rC6).raftLog.LastIndex + 1⟩ :=
  ⟨(becomeLeader_progress_effect rC6).1 2 (by decide),
   (becomeLeader_progress_effect rC6).2.1,
   (becomeLeader_progress_effect rC6).2.2 ⟨2, by decide, by decide⟩⟩

/-- Counterexample to claim C7: on the compacted log `lC7`
(`dummyIndex = 2`, `LastIndex = 3`), `Term 1` and `Term 4` panic on an out
of range index instead of returning `ErrCompacted` respectively
`ErrUnavailable`. -/
theorem raftLog_term_error_cex :
    1 < lC7.dummyIndex ∧ lC7.Term 1 = .oob ∧
      returnsErr (lC7.Term 1) .ErrCompacted = false ∧
      lC7.LastIndex < 4 ∧ lC7.Term 4 = .oob ∧
      returnsErr (lC7.Term 4) .ErrUnavailable = false := by
  refine ⟨by decide, by decide, by decide, by decide, by decide, by decide⟩

/-- Claim C7 as amended: `term(i)` returns `entries[i - dummyIndex].Term`
with a nil error when `dummyIndex ≤ i ≤ lastIndex`, and for any `i` outside
that range the lookup panics (index out of range, after `uint64`
wraparound) rather than failing with `ErrCompacted` or `ErrUnavailable`. -/
theorem raftLog_term_contract (l : RaftLog) (i : Nat)
    (hlen : 0 < l.entries.length)
    (hbound : l.dummyIndex + l.entries.length < 2 ^ 64) (hi : i < 2 ^ 64) :
    (l.dummyIndex ≤ i → i ≤ l.LastIndex →
      l.Term i = .ok ((l.entries.getD (i - l.dummyIndex) default).Term) none) ∧
    (i < l.dummyIndex → l.Term i = .oob) ∧
    (l.LastIndex < i → l.Term i = .oob) := by
  have hLI : l.LastIndex = l.dummyIndex + (l.entries.length - 1) := by
    simp [RaftLog.LastIndex, RaftLog.allEntries]
  refine ⟨fun h1 h2 => ?_, fun h1 => ?_, fun h1 => ?_⟩
  · have hin : i - l.dummyIndex < l.entries.length := by omega
    unfold RaftLog.Term
    rw [sub64_of_le i l.dummyIndex h1 hi, List.get?_eq_getElem?,
      List.getElem?_eq_getElem hin, List.getD_eq_getElem _ _ hin]
  · unfold RaftLog.Term
    rw [sub64_of_lt i l.dummyIndex h1 (by omega), List.get?_len_le (by omega)]
  · have hge : l.dummyIndex ≤ i := by omega
    unfold RaftLog.Term
    rw [sub64_of_le i l.dummyIndex hge hi, List.get?_len_le (by omega)]

/-- Witness for claim C7 at the log `lC7` and index 3. -/
theorem raftLog_term_contract_witness :
    (lC7.dummyIndex ≤ 3 → 3 ≤ lC7.LastIndex →
      lC7.Term 3 = .ok ((lC7.entries.getD (3 - lC7.dummyIndex) default).Term) none) ∧
    (3 < lC7.dummyIndex → lC7.Term 3 = .oob) ∧
    (lC7.LastIndex < 3 → lC7.Term 3 = .oob) :=
  raftLog_term_contract lC7 3 (by decide) (by decide) (by decide)

/-- C8: the claim says a peer that cannot accept a `MsgPropose` returns
`ErrProposalDropped` from `step`.  Every branch of the Go `Step` returns
`nil`: the follower `rC8` stepped with the proposal `mC8` is returned
unchanged together with a `nil` error, so the proposal is silently dropped
and `ErrProposalDropped` (whose own doc comment promises the caller a
notification) is never produced. -/
theorem step_propose_follower_dropped :
    rC8.State = .StateFollower ∧ mC8.MsgType = .MsgPropose ∧
      Step rC8 mC8 0 = (rC8, none) :=
  ⟨rfl, rfl, rfl⟩

/-- Counterexample to claim C9: the follower `rC9` satisfies the ordering
invariant, yet stepping the conflicting append `mC9` (whose entry conflicts
at index 1, below `committed = 3`) truncates committed entries and leaves
`committed = 3 > lastIndex = 1`. -/
theorem order_invariant_cex :
    logInv rC9.raftLog ∧ ¬ logInv ((Step rC9 mC9 0).1.raftLog) := by
  refine ⟨by decide, by decide⟩

/-- Claim C9 as amended: `tick` always preserves
`applied ≤ committed ≤ lastIndex ∧ stabled ≤ lastIndex`, and `Step`
preserves it provided an accepted `MsgAppend` does not conflict at or below
the committed index (`appendSafe`, which every message from a correct
leader satisfies by leader completeness). -/
theorem order_invariant_preserved (r : Raft) (m : Message) (jit : Nat)
    (h : logInv r.raftLog) (hm : appendSafe r m = true) :
    logInv (tick r jit).raftLog ∧ logInv ((Step r m jit).1).raftLog := by
  refine ⟨tick_logInv r jit h, ?_⟩
  rcases hs : r.State with _ | _ | _ <;>
    rcases ht : m.MsgType <;>
    simp only [Step, hs, ht]
  all_goals try split_ifs
  all_goals
    first
      | exact h
      | exact requestVote_logInv _ h
      | exact handleVoteResponse_logInv _ m h
      | exact handleAppendEntries_logInv _ m h (appendSafe_spec r m hm ht)
      | (rw [handleRequestVote_raftLog]; exact h)
      | (rw [handleHeartbeat_raftLog]; exact h)
      | exact handleMsgPropose_logInv r m h
      | (rw [foldl_sendHeartbeat_raftLog]; exact h)
      | (simp only [HandleAppendResponse]; exact updateCommit_logInv _ h)

/-- Witness for claim C9: a fresh follower ticking once and handling a
same term heartbeat. -/
theorem order_invariant_preserved_witness :
    logInv (tick rC9w 0).raftLog ∧ logInv ((Step rC9w mC9w 0).1).raftLog :=
  order_invariant_preserved rC9w mC9w 0 (by decide) (by decide)

/-- Claim C10: a follower handling a `MsgHeartbeat` at its own term only
appends a `MsgHeartbeatResponse` with `reject = false`; term, vote, lead,
`electionElapsed` (the election timer is not reset), the log entries and
`committed` are all unchanged. -/
theorem heartbeat_same_term_frame (r : Raft) (m : Message) (jit : Nat)
    (hs : r.State = .StateFollower) (ht : m.MsgType = .MsgHeartbeat)
    (heq : m.Term = r.Term) :
    (Step r m jit).1 = { r with msgs := r.msgs ++
      [{ MsgType := .MsgHeartbeatResponse, From := r.id, To := m.From,
         Term := r.Term, Reject := false }] } := by
  simp [Step, hs, ht, handleHeartbeat, heq]

/-- Witness for claim C10 at the follower `rC10`. -/
theorem heartbeat_same_term_frame_witness :
    (Step rC10 mC10 0).1 = { rC10 with msgs := rC10.msgs ++
      [{ MsgType := .MsgHeartbeatResponse, From := rC10.id, To := mC10.From,
         Term := rC10.Term, Reject := false }] } :=
  heartbeat_same_term_frame rC10 mC10 0 rfl rfl rfl
